import Mathlib

/-!
Verification development for the bank interest-rate extraction pipeline
(API-lanakj0r).  We shallowly embed the Python data model and the operations
the specification talks about:

* nested JSON-like records (`Value`) as produced by the scrapers,
* `BankScraper._count_nulls` / `AIProcessor._count_nulls` (`countNulls`),
* `BankScraper._merge_data` (`mergeData`),
* `BankScraper.enhance_with_ai` (`enhance_with_ai`),
* `AIProcessor.parse_bank_data` / `AIProcessor._get_empty_structure`,
* `InterestRateParser.parse_percentage`, the tiered-account arity dispatch of
  `InterestRateParser._parse_tiered_accounts`,
* `InterestRateParser.parse_effective_date` and
  `IslandsbankiScraper.parse_effective_date` (with an executable model of the
  specific regular expressions those methods use).

Python floats are modelled as rationals, Python dicts as association lists
(Python dict equality is key-set based and order-insensitive; where the source
iterates over `set(a) | set(b)`, whose order is unspecified, we fix the
representative order "keys of the first argument first", which is equality-
preserving for dict comparison).
-/

namespace Bank

/-- JSON-like values: the dynamic data manipulated by the pipeline.
`dict` is a Python `dict` (association list, unique keys in well-formed data),
`list` a Python `list`, `num` a Python number (int/float, modelled as `ℚ`),
`str` a Python string, `null` is `None`. -/
inductive Value where
  | null : Value
  | num : Rat → Value
  | str : String → Value
  | dict : List (String × Value) → Value
  | list : List Value → Value

mutual

/-- Decidable equality for `Value` (hand-written: `deriving` does not support
this nested inductive). -/
def decEqValue : (a b : Value) → Decidable (a = b)
  | .null, .null => .isTrue rfl
  | .null, .num _ => .isFalse (fun h => Value.noConfusion h)
  | .null, .str _ => .isFalse (fun h => Value.noConfusion h)
  | .null, .dict _ => .isFalse (fun h => Value.noConfusion h)
  | .null, .list _ => .isFalse (fun h => Value.noConfusion h)
  | .num _, .null => .isFalse (fun h => Value.noConfusion h)
  | .num a, .num b =>
    if h : a = b then .isTrue (by rw [h]) else
      .isFalse (fun hc => h (by injection hc))
  | .num _, .str _ => .isFalse (fun h => Value.noConfusion h)
  | .num _, .dict _ => .isFalse (fun h => Value.noConfusion h)
  | .num _, .list _ => .isFalse (fun h => Value.noConfusion h)
  | .str _, .null => .isFalse (fun h => Value.noConfusion h)
  | .str _, .num _ => .isFalse (fun h => Value.noConfusion h)
  | .str a, .str b =>
    if h : a = b then .isTrue (by rw [h]) else
      .isFalse (fun hc => h (by injection hc))
  | .str _, .dict _ => .isFalse (fun h => Value.noConfusion h)
  | .str _, .list _ => .isFalse (fun h => Value.noConfusion h)
  | .dict _, .null => .isFalse (fun h => Value.noConfusion h)
  | .dict _, .num _ => .isFalse (fun h => Value.noConfusion h)
  | .dict _, .str _ => .isFalse (fun h => Value.noConfusion h)
  | .dict a, .dict b =>
    match decEqEntries a b with
    | .isTrue h => .isTrue (by rw [h])
    | .isFalse h => .isFalse (fun hc => h (by injection hc))
  | .dict _, .list _ => .isFalse (fun h => Value.noConfusion h)
  | .list _, .null => .isFalse (fun h => Value.noConfusion h)
  | .list _, .num _ => .isFalse (fun h => Value.noConfusion h)
  | .list _, .str _ => .isFalse (fun h => Value.noConfusion h)
  | .list _, .dict _ => .isFalse (fun h => Value.noConfusion h)
  | .list a, .list b =>
    match decEqList a b with
    | .isTrue h => .isTrue (by rw [h])
    | .isFalse h => .isFalse (fun hc => h (by injection hc))

/-- Decidable equality for dict bodies. -/
def decEqEntries : (a b : List (String × Value)) → Decidable (a = b)
  | [], [] => .isTrue rfl
  | [], _ :: _ => .isFalse (fun h => List.noConfusion h)
  | _ :: _, [] => .isFalse (fun h => List.noConfusion h)
  | (k1, v1) :: es1, (k2, v2) :: es2 =>
    if hk : k1 = k2 then
      match decEqValue v1 v2 with
      | .isTrue hv =>
        match decEqEntries es1 es2 with
        | .isTrue hs => .isTrue (by rw [hk, hv, hs])
        | .isFalse hs => .isFalse (fun hc => hs (by injection hc))
      | .isFalse hv =>
        .isFalse (fun hc => by
          injection hc with h1 h2
          exact hv (congrArg Prod.snd h1))
    else
      .isFalse (fun hc => by
        injection hc with h1 h2
        exact hk (congrArg Prod.fst h1))

/-- Decidable equality for list bodies. -/
def decEqList : (a b : List Value) → Decidable (a = b)
  | [], [] => .isTrue rfl
  | [], _ :: _ => .isFalse (fun h => List.noConfusion h)
  | _ :: _, [] => .isFalse (fun h => List.noConfusion h)
  | v1 :: vs1, v2 :: vs2 =>
    match decEqValue v1 v2 with
    | .isTrue hv =>
      match decEqList vs1 vs2 with
      | .isTrue hs => .isTrue (by rw [hv, hs])
      | .isFalse hs => .isFalse (fun hc => hs (by injection hc))
    | .isFalse hv => .isFalse (fun hc => hv (by injection hc))

end

instance : DecidableEq Value := decEqValue

instance : BEq Value := instBEqOfDecidableEq

namespace Value

/-- `isinstance(v, dict)` -/
def isDict : Value → Bool
  | .dict _ => true
  | _ => false

/-- Python truth-value test `not v` for the values the merge inspects:
`None` and `{}` are falsy.  `v.isNullOrEmptyDict` is
`v is None or (isinstance(v, dict) and not v)` from `_merge_data`. -/
def isNullOrEmptyDict (v : Value) : Bool :=
  v == .null || v == .dict []

end Value

/-- First value stored under key `k` (Python `dict` lookup; association lists
with unique keys in well-formed data). -/
def lookup (k : String) : List (String × Value) → Option Value
  | [] => none
  | e :: es => if e.1 = k then some e.2 else lookup k es

/-- `d.get(k)`: Python `dict.get` returns `None` when the key is absent, which
the merge code treats identically to a stored `None`. -/
def getD (es : List (String × Value)) (k : String) : Value :=
  (lookup k es).getD .null

/-- Keep the first occurrence of each element (used to model iteration over a
Python `set`, which contains each key once). -/
def dedupFirst : List String → List String
  | [] => []
  | k :: ks => k :: dedupFirst (ks.filter (fun x => x ≠ k))
termination_by l => l.length
decreasing_by
  simp only [List.length_cons]
  exact Nat.lt_succ_of_le (List.length_filter_le _ _)

/-- `set(original.keys()) | set(ai_data.keys())` from `_merge_data`
(representative order: keys of `original` first). -/
def unionKeys (os as : List (String × Value)) : List String :=
  dedupFirst (os.map Prod.fst ++ as.map Prod.fst)

mutual

/-- `BankScraper._count_nulls` (base.py:106-119) and the textually identical
`AIProcessor._count_nulls` (ai_processor.py:203-216): `None` counts 1, an
empty dict or list counts 1, a non-empty dict/list sums over its members,
every other value counts 0. -/
def countNulls : Value → Nat
  | .null => 1
  | .num _ => 0
  | .str _ => 0
  | .dict [] => 1
  | .dict (e :: es) => countNullsEntries (e :: es)
  | .list [] => 1
  | .list (v :: vs) => countNullsList (v :: vs)

/-- Sum of `countNulls` over the values of a dict body. -/
def countNullsEntries : List (String × Value) → Nat
  | [] => 0
  | e :: es => countNulls e.2 + countNullsEntries es

/-- Sum of `countNulls` over the items of a list body. -/
def countNullsList : List Value → Nat
  | [] => 0
  | v :: vs => countNulls v + countNullsList vs

end

theorem sizeOf_lookup {k : String} {es : List (String × Value)} {v : Value}
    (h : lookup k es = some v) : sizeOf v < sizeOf (Value.dict es) := by
  induction es with
  | nil => simp [lookup] at h
  | cons e es ih =>
    obtain ⟨k1, v1⟩ := e
    simp only [lookup] at h
    split at h
    · cases h
      simp only [Value.dict.sizeOf_spec, List.cons.sizeOf_spec, Prod.mk.sizeOf_spec]
      omega
    · have := ih h
      simp only [Value.dict.sizeOf_spec, List.cons.sizeOf_spec, Prod.mk.sizeOf_spec] at *
      omega

theorem sizeOf_getD (es : List (String × Value)) (k : String) :
    sizeOf (getD es k) < sizeOf (Value.dict es) := by
  unfold getD
  cases h : lookup k es with
  | none =>
    have hnull : sizeOf (Value.null) = 1 := by simp
    have hes : 1 ≤ sizeOf es := by
      cases es with
      | nil => simp
      | cons e es => simp only [List.cons.sizeOf_spec]; omega
    simp only [Option.getD, Value.dict.sizeOf_spec]
    omega
  | some v =>
    simpa using sizeOf_lookup h

/-- `BankScraper._merge_data` (base.py:121-146).  On two dicts it builds a new
dict over the union of the key sets; per key it recurses when both values are
dicts, takes the AI value when the original value is `None`/`{}`, takes the
original value when the AI value is `None`/`{}`, and otherwise prefers the
original value.  On any non-dict argument it returns
`original if original is not None else ai_data`. -/
def mergeData : Value → Value → Value
  | .dict os, .dict as =>
    .dict ((unionKeys os as).map (fun k =>
      let o := getD os k
      let a := getD as k
      (k,
        if o.isDict && a.isDict then mergeData o a
        else if o.isNullOrEmptyDict then a
        else if a.isNullOrEmptyDict then o
        else o)))
  | o, a => if o = .null then a else o
termination_by o a => sizeOf o + sizeOf a
decreasing_by
  have h1 := sizeOf_getD os k
  have h2 := sizeOf_getD as k
  omega

/-- The per-key combination step of `_merge_data` (base.py:136-144), written
out for reasoning: recurse when both values are dicts, take the AI value when
the original is `None`/empty-dict, take the original when the AI value is
`None`/empty-dict, otherwise prefer the original. -/
def mergeCase (o a : Value) : Value :=
  if o.isDict && a.isDict then mergeData o a
  else if o.isNullOrEmptyDict then a
  else if a.isNullOrEmptyDict then o
  else o

theorem mergeData_dict (os as : List (String × Value)) :
    mergeData (.dict os) (.dict as) =
      .dict ((unionKeys os as).map (fun k => (k, mergeCase (getD os k) (getD as k)))) := by
  rw [mergeData]
  rfl

theorem mergeData_not_dict {o a : Value} (h : o.isDict = false ∨ a.isDict = false) :
    mergeData o a = if o = .null then a else o := by
  cases o <;> cases a <;> simp_all [Value.isDict] <;> rw [mergeData] <;> simp

/-- Descend into nested dicts along a path of keys.  `none` means the path is
absent (a key is missing, or the walk hits a non-dict value). -/
def getPath : Value → List String → Option Value
  | v, [] => some v
  | .dict es, k :: p =>
    match lookup k es with
    | some w => getPath w p
    | none => none
  | _, _ :: _ => none

/-- No duplicates in a key list. -/
def nodupB : List String → Bool
  | [] => true
  | k :: ks => ks.all (fun x => x ≠ k) && nodupB ks

mutual

/-- Well-formed values: every dict has pairwise distinct keys (always true of
data coming from Python dicts). -/
def wfB : Value → Bool
  | .null => true
  | .num _ => true
  | .str _ => true
  | .dict es => nodupB (es.map Prod.fst) && wfEntriesB es
  | .list vs => wfListB vs

/-- `wfB` on every value of a dict body. -/
def wfEntriesB : List (String × Value) → Bool
  | [] => true
  | e :: es => wfB e.2 && wfEntriesB es

/-- `wfB` on every item of a list body. -/
def wfListB : List Value → Bool
  | [] => true
  | v :: vs => wfB v && wfListB vs

end

/-! ### Lemmas about lookup, key union and the merge -/

theorem lookup_map_of_mem (f : String → Value) :
    ∀ (ks : List String) (k : String), k ∈ ks →
      lookup k (ks.map (fun x => (x, f x))) = some (f k)
  | [], k, h => by simp at h
  | x :: xs, k, h => by
    by_cases hx : x = k
    · subst hx
      simp [lookup]
    · have hk : k ∈ xs := by
        cases h with
        | head => exact absurd rfl hx
        | tail _ h' => exact h'
      simp only [List.map_cons, lookup, hx, if_false]
      exact lookup_map_of_mem f xs k hk

theorem lookup_map_of_not_mem (f : String → Value) :
    ∀ (ks : List String) (k : String), k ∉ ks →
      lookup k (ks.map (fun x => (x, f x))) = none
  | [], k, _ => by simp [lookup]
  | x :: xs, k, h => by
    have hx : x ≠ k := fun hc => h (hc ▸ List.mem_cons_self x xs)
    have hk : k ∉ xs := fun hc => h (List.mem_cons_of_mem x hc)
    simp only [List.map_cons, lookup, hx, if_false]
    exact lookup_map_of_not_mem f xs k hk

theorem lookup_some_mem : ∀ {es : List (String × Value)} {k : String} {v : Value},
    lookup k es = some v → k ∈ es.map Prod.fst
  | [], k, v, h => by simp [lookup] at h
  | e :: es, k, v, h => by
    simp only [lookup] at h
    split at h
    · rename_i he
      simp [← he]
    · exact List.mem_cons_of_mem _ (lookup_some_mem h)

theorem lookup_none_of_not_mem : ∀ {es : List (String × Value)} {k : String},
    k ∉ es.map Prod.fst → lookup k es = none
  | [], k, _ => by simp [lookup]
  | e :: es, k, h => by
    have he : e.1 ≠ k := by
      intro hc
      exact h (by simp [hc])
    have hk : k ∉ es.map Prod.fst := fun hc => h (List.mem_cons_of_mem _ hc)
    simp only [lookup, he, if_false]
    exact lookup_none_of_not_mem hk

theorem mem_dedupFirst : ∀ (l : List String) (k : String), k ∈ dedupFirst l ↔ k ∈ l
  | [], k => by simp [dedupFirst]
  | x :: xs, k => by
    rw [dedupFirst]
    by_cases hx : k = x
    · subst hx
      simp
    · simp only [List.mem_cons, hx, false_or]
      rw [mem_dedupFirst (xs.filter (fun a => a ≠ x)) k]
      simp [List.mem_filter, hx]
termination_by l => l.length
decreasing_by
  simp only [List.length_cons]
  exact Nat.lt_succ_of_le (List.length_filter_le _ _)

theorem mem_unionKeys {os as : List (String × Value)} {k : String} :
    k ∈ unionKeys os as ↔ k ∈ os.map Prod.fst ∨ k ∈ as.map Prod.fst := by
  unfold unionKeys
  rw [mem_dedupFirst]
  exact List.mem_append

theorem getD_eq_null_of_not_mem {es : List (String × Value)} {k : String}
    (h : k ∉ es.map Prod.fst) : getD es k = .null := by
  unfold getD
  rw [lookup_none_of_not_mem h]
  rfl

theorem getD_of_lookup {es : List (String × Value)} {k : String} {v : Value}
    (h : lookup k es = some v) : getD es k = v := by
  unfold getD
  rw [h]
  rfl

/-- `lookup` in the merged dict body: inside the union of the key sets the
merge stores exactly the per-key combination; outside it stores nothing. -/
theorem lookup_merged (os as : List (String × Value)) (k : String) :
    lookup k ((unionKeys os as).map (fun x => (x, mergeCase (getD os x) (getD as x)))) =
      if k ∈ unionKeys os as then some (mergeCase (getD os k) (getD as k)) else none := by
  by_cases h : k ∈ unionKeys os as
  · rw [if_pos h]
    exact lookup_map_of_mem _ _ _ h
  · rw [if_neg h]
    exact lookup_map_of_not_mem _ _ _ h

theorem nodupB_not_contains {x : String} {xs : List String}
    (h : nodupB (x :: xs) = true) : x ∉ xs := by
  simp only [nodupB, Bool.and_eq_true, List.all_eq_true] at h
  intro hc
  have := h.1 x hc
  simp at this

theorem nodupB_tail {x : String} {xs : List String}
    (h : nodupB (x :: xs) = true) : nodupB xs = true := by
  simp only [nodupB, Bool.and_eq_true] at h
  exact h.2

theorem filter_ne_of_not_mem {x : String} {xs : List String} (h : x ∉ xs) :
    xs.filter (fun a => a ≠ x) = xs := by
  rw [List.filter_eq_self]
  intro a ha
  simp only [ne_eq, decide_eq_true_eq]
  intro hc
  exact h (hc ▸ ha)

theorem dedupFirst_append_self : ∀ {ks : List String}, nodupB ks = true →
    dedupFirst (ks ++ ks) = ks := by
  suffices h : ∀ (n : Nat) (ks : List String), ks.length ≤ n → nodupB ks = true →
      dedupFirst (ks ++ ks) = ks by
    intro ks hks
    exact h ks.length ks le_rfl hks
  intro n
  induction n with
  | zero =>
    intro ks hlen _
    have : ks = [] := List.eq_nil_of_length_eq_zero (Nat.le_zero.mp hlen)
    subst this
    simp [dedupFirst]
  | succ m ih =>
    intro ks hlen hks
    cases ks with
    | nil => simp [dedupFirst]
    | cons x xs =>
      have hx : x ∉ xs := nodupB_not_contains hks
      have hxs : nodupB xs = true := nodupB_tail hks
      rw [List.cons_append, dedupFirst]
      have hfilter : ((xs ++ x :: xs).filter (fun a => a ≠ x)) = xs ++ xs := by
        rw [List.filter_append, filter_ne_of_not_mem hx]
        have hcons : (x :: xs).filter (fun a => a ≠ x) = xs.filter (fun a => a ≠ x) := by
          simp [List.filter_cons]
        rw [hcons, filter_ne_of_not_mem hx]
      rw [hfilter]
      rw [ih xs (by simp at hlen; omega) hxs]

/-- Reconstructing a dict body from its keys and `getD`. -/
theorem entries_ext (f : String → Value) :
    ∀ (es : List (String × Value)), nodupB (es.map Prod.fst) = true →
      (∀ k v, lookup k es = some v → f k = v) →
      (es.map Prod.fst).map (fun k => (k, f k)) = es
  | [], _, _ => rfl
  | (k0, v0) :: es, hnd, hf => by
    have h0 : f k0 = v0 := hf k0 v0 (by simp [lookup])
    have hk0 : k0 ∉ es.map Prod.fst := nodupB_not_contains hnd
    have hrec := entries_ext f es (nodupB_tail hnd) (by
      intro k v hkv
      have hne : k0 ≠ k := by
        intro hc
        subst hc
        exact hk0 (lookup_some_mem hkv)
      exact hf k v (by simp [lookup, hne]; exact hkv))
    simp only [List.map_cons, h0]
    rw [hrec]

theorem wfEntriesB_lookup : ∀ {es : List (String × Value)} {k : String} {v : Value},
    wfEntriesB es = true → lookup k es = some v → wfB v = true
  | [], k, v, _, h => by simp [lookup] at h
  | e :: es, k, v, hwf, h => by
    simp only [wfEntriesB, Bool.and_eq_true] at hwf
    simp only [lookup] at h
    split at h
    · cases h
      exact hwf.1
    · exact wfEntriesB_lookup hwf.2 h

theorem wfB_dict_lookup {es : List (String × Value)} {k : String} {v : Value}
    (hwf : wfB (.dict es) = true) (h : lookup k es = some v) : wfB v = true := by
  simp only [wfB, Bool.and_eq_true] at hwf
  exact wfEntriesB_lookup hwf.2 h

/-- Merging a well-formed value with itself returns it unchanged
(idempotence of `_merge_data`). -/
theorem mergeData_self : ∀ (X : Value), wfB X = true → mergeData X X = X
  | .null, _ => by rw [mergeData_not_dict (o := .null) (Or.inl rfl)]; simp
  | .num q, _ => by rw [mergeData_not_dict (o := .num q) (Or.inl rfl)]; simp
  | .str s, _ => by rw [mergeData_not_dict (o := .str s) (Or.inl rfl)]; simp
  | .list vs, _ => by rw [mergeData_not_dict (o := .list vs) (Or.inl rfl)]; simp
  | .dict es, hwf => by
    rw [mergeData_dict]
    have hnd : nodupB (es.map Prod.fst) = true := by
      simp only [wfB, Bool.and_eq_true] at hwf
      exact hwf.1
    have hu : unionKeys es es = es.map Prod.fst := by
      unfold unionKeys
      exact dedupFirst_append_self hnd
    rw [hu]
    have hext := entries_ext (fun k => mergeCase (getD es k) (getD es k)) es hnd (by
      intro k v hkv
      have hg : getD es k = v := getD_of_lookup hkv
      show mergeCase (getD es k) (getD es k) = v
      rw [hg]
      have hv : wfB v = true := wfB_dict_lookup hwf hkv
      have hlt : sizeOf v < sizeOf (Value.dict es) := sizeOf_lookup hkv
      unfold mergeCase
      match v, hv with
      | .null, _ => simp [Value.isDict, Value.isNullOrEmptyDict]
      | .num q, _ => simp [Value.isDict, Value.isNullOrEmptyDict]
      | .str s, _ => simp [Value.isDict, Value.isNullOrEmptyDict]
      | .list vs, _ => simp [Value.isDict, Value.isNullOrEmptyDict]
      | .dict ds, hv => simpa [Value.isDict] using mergeData_self (.dict ds) hv)
    rw [hext]
termination_by X => sizeOf X
decreasing_by
  simp only [Value.dict.sizeOf_spec] at *
  omega

theorem lookup_vs_getD (es : List (String × Value)) (k : String) :
    lookup k es = some (getD es k) ∨ (lookup k es = none ∧ getD es k = .null) := by
  unfold getD
  cases h : lookup k es with
  | none => exact Or.inr ⟨rfl, rfl⟩
  | some v => exact Or.inl rfl

theorem isNullOrEmptyDict_iff {v : Value} :
    v.isNullOrEmptyDict = true ↔ v = .null ∨ v = .dict [] := by
  cases v <;> simp [Value.isNullOrEmptyDict]

theorem isDict_iff {v : Value} : v.isDict = true ↔ ∃ es, v = .dict es := by
  cases v <;> simp [Value.isDict]

/-- A scalar leaf: a number, a string, or a list (the merge never rewrites
these; `None` and dicts are the only values it replaces or rebuilds). -/
def isLeafB : Value → Bool
  | .num _ => true
  | .str _ => true
  | .list _ => true
  | _ => false

/-- Where the merged record stores an explicit `None`: only at paths where
the AI record is null/absent and the original record is null, absent or an
empty dict. -/
theorem mergeData_null_path : ∀ (A B : Value) (p : List String),
    getPath (mergeData A B) p = some .null →
    (getPath B p = none ∨ getPath B p = some .null) ∧
    (getPath A p = none ∨ getPath A p = some .null ∨ getPath A p = some (.dict []))
  | .null, B, p, h => by
    rw [mergeData_not_dict (o := .null) (Or.inl rfl), if_pos rfl] at h
    refine ⟨Or.inr h, ?_⟩
    cases p with
    | nil => exact Or.inr (Or.inl (by simp [getPath]))
    | cons k p' => exact Or.inl (by simp [getPath])
  | .num q, B, p, h => by
    rw [mergeData_not_dict (o := .num q) (Or.inl rfl), if_neg (by simp)] at h
    cases p <;> simp [getPath] at h
  | .str s, B, p, h => by
    rw [mergeData_not_dict (o := .str s) (Or.inl rfl), if_neg (by simp)] at h
    cases p <;> simp [getPath] at h
  | .list vs, B, p, h => by
    rw [mergeData_not_dict (o := .list vs) (Or.inl rfl), if_neg (by simp)] at h
    cases p <;> simp [getPath] at h
  | .dict os, .null, p, h => by
    rw [mergeData_not_dict (a := .null) (Or.inr rfl), if_neg (by simp)] at h
    refine ⟨?_, Or.inr (Or.inl h)⟩
    cases p with
    | nil => simp [getPath] at h
    | cons k p' => exact Or.inl (by simp [getPath])
  | .dict os, .num q, p, h => by
    rw [mergeData_not_dict (a := .num q) (Or.inr rfl), if_neg (by simp)] at h
    refine ⟨?_, Or.inr (Or.inl h)⟩
    cases p with
    | nil => simp [getPath] at h
    | cons k p' => exact Or.inl (by simp [getPath])
  | .dict os, .str s, p, h => by
    rw [mergeData_not_dict (a := .str s) (Or.inr rfl), if_neg (by simp)] at h
    refine ⟨?_, Or.inr (Or.inl h)⟩
    cases p with
    | nil => simp [getPath] at h
    | cons k p' => exact Or.inl (by simp [getPath])
  | .dict os, .list vs, p, h => by
    rw [mergeData_not_dict (a := .list vs) (Or.inr rfl), if_neg (by simp)] at h
    refine ⟨?_, Or.inr (Or.inl h)⟩
    cases p with
    | nil => simp [getPath] at h
    | cons k p' => exact Or.inl (by simp [getPath])
  | .dict os, .dict as, p, h => by
    rw [mergeData_dict] at h
    cases p with
    | nil => simp [getPath] at h
    | cons k p' =>
      by_cases hk : k ∈ unionKeys os as
      case neg =>
        have hnone := lookup_map_of_not_mem
          (fun x => mergeCase (getD os x) (getD as x)) _ _ hk
        simp only [getPath, hnone] at h
        exact Option.noConfusion h
      case pos =>
        have hsome := lookup_map_of_mem
          (fun x => mergeCase (getD os x) (getD as x)) _ _ hk
        simp only [getPath, hsome] at h
        by_cases hd : (getD os k).isDict && (getD as k).isDict
        case pos =>
          rw [mergeCase, if_pos hd] at h
          have hIH := mergeData_null_path (getD os k) (getD as k) p' h
          simp only [Bool.and_eq_true, isDict_iff] at hd
          obtain ⟨⟨es1, ho1⟩, ⟨es2, ha2⟩⟩ := hd
          have hlo : lookup k os = some (getD os k) := by
            rcases lookup_vs_getD os k with hc | ⟨_, hc⟩
            · exact hc
            · rw [hc] at ho1; cases ho1
          have hla : lookup k as = some (getD as k) := by
            rcases lookup_vs_getD as k with hc | ⟨_, hc⟩
            · exact hc
            · rw [hc] at ha2; cases ha2
          constructor
          · simpa only [getPath, hla] using hIH.1
          · simpa only [getPath, hlo] using hIH.2
        case neg =>
          rw [mergeCase, if_neg hd] at h
          by_cases h2 : (getD os k).isNullOrEmptyDict
          case pos =>
            rw [if_pos h2] at h
            constructor
            · rcases lookup_vs_getD as k with hc | ⟨hc, _⟩
              · exact Or.inr (by simpa only [getPath, hc] using h)
              · exact Or.inl (by simp only [getPath, hc])
            · rcases isNullOrEmptyDict_iff.mp h2 with h3 | h3
              · rcases lookup_vs_getD os k with hc | ⟨hc, _⟩
                · rw [h3] at hc
                  cases p' with
                  | nil => exact Or.inr (Or.inl (by simp [getPath, hc]))
                  | cons k2 p2 => exact Or.inl (by simp [getPath, hc])
                · exact Or.inl (by simp only [getPath, hc])
              · rcases lookup_vs_getD os k with hc | ⟨hc, hnl⟩
                · rw [h3] at hc
                  cases p' with
                  | nil => exact Or.inr (Or.inr (by simp [getPath, hc]))
                  | cons k2 p2 =>
                    exact Or.inl (by simp [getPath, hc, lookup])
                · exact Or.inl (by simp only [getPath, hc])
          case neg =>
            rw [if_neg h2] at h
            have hO : getPath (getD os k) p' = some .null := by
              by_cases h3 : (getD as k).isNullOrEmptyDict
              · rwa [if_pos h3] at h
              · rwa [if_neg h3] at h
            have hlo : lookup k os = some (getD os k) := by
              rcases lookup_vs_getD os k with hc | ⟨_, hc⟩
              · exact hc
              · rw [hc] at h2; simp [Value.isNullOrEmptyDict] at h2
            refine ⟨?_, Or.inr (Or.inl (by simpa only [getPath, hlo] using hO))⟩
            cases p' with
            | nil =>
              simp only [getPath, Option.some.injEq] at hO
              rw [hO] at h2
              simp [Value.isNullOrEmptyDict] at h2
            | cons k2 p2 =>
              rcases lookup_vs_getD as k with hc | ⟨hc, _⟩
              · cases ha' : getD as k with
                | dict es2 =>
                  exfalso
                  cases hos : getD os k with
                  | dict es1 =>
                    rw [hos, ha'] at hd
                    simp [Value.isDict] at hd
                  | null => rw [hos] at hO; simp [getPath] at hO
                  | num q2 => rw [hos] at hO; simp [getPath] at hO
                  | str s2 => rw [hos] at hO; simp [getPath] at hO
                  | list vs2 => rw [hos] at hO; simp [getPath] at hO
                | null =>
                  rw [ha'] at hc
                  exact Or.inl (by simp [getPath, hc])
                | num q =>
                  rw [ha'] at hc
                  exact Or.inl (by simp [getPath, hc])
                | str s =>
                  rw [ha'] at hc
                  exact Or.inl (by simp [getPath, hc])
                | list vs =>
                  rw [ha'] at hc
                  exact Or.inl (by simp [getPath, hc])
              · exact Or.inl (by simp only [getPath, hc])
termination_by A B p => sizeOf A + sizeOf B
decreasing_by
  have h1 := sizeOf_getD os k
  have h2 := sizeOf_getD as k
  omega

/-- The merge never rewrites a scalar leaf of the original record: every
number/string/list reachable in `A` is still there, unchanged, in
`mergeData A B`. -/
theorem mergeData_preserves_leaf : ∀ (A B : Value) (p : List String) (v : Value),
    isLeafB v = true → getPath A p = some v → getPath (mergeData A B) p = some v
  | .null, B, p, v, hleaf, h => by
    cases p <;> simp [getPath] at h <;> subst h <;> simp [isLeafB] at hleaf
  | .num q, B, p, v, hleaf, h => by
    rw [mergeData_not_dict (o := .num q) (Or.inl rfl), if_neg (by simp)]
    exact h
  | .str s, B, p, v, hleaf, h => by
    rw [mergeData_not_dict (o := .str s) (Or.inl rfl), if_neg (by simp)]
    exact h
  | .list vs, B, p, v, hleaf, h => by
    rw [mergeData_not_dict (o := .list vs) (Or.inl rfl), if_neg (by simp)]
    exact h
  | .dict os, .null, p, v, hleaf, h => by
    rw [mergeData_not_dict (a := .null) (Or.inr rfl), if_neg (by simp)]
    exact h
  | .dict os, .num q, p, v, hleaf, h => by
    rw [mergeData_not_dict (a := .num q) (Or.inr rfl), if_neg (by simp)]
    exact h
  | .dict os, .str s, p, v, hleaf, h => by
    rw [mergeData_not_dict (a := .str s) (Or.inr rfl), if_neg (by simp)]
    exact h
  | .dict os, .list vs, p, v, hleaf, h => by
    rw [mergeData_not_dict (a := .list vs) (Or.inr rfl), if_neg (by simp)]
    exact h
  | .dict os, .dict as, p, v, hleaf, h => by
    rw [mergeData_dict]
    cases p with
    | nil =>
      simp only [getPath, Option.some.injEq] at h
      rw [← h] at hleaf
      simp [isLeafB] at hleaf
    | cons k p' =>
      simp only [getPath] at h
      cases hl : lookup k os with
      | none => rw [hl] at h; cases h
      | some w =>
        rw [hl] at h
        have hgd : getD os k = w := getD_of_lookup hl
        have hk : k ∈ unionKeys os as :=
          mem_unionKeys.mpr (Or.inl (lookup_some_mem hl))
        have hsome := lookup_map_of_mem
          (fun x => mergeCase (getD os x) (getD as x)) _ _ hk
        simp only [getPath, hsome]
        rw [mergeCase, hgd]
        by_cases hd : w.isDict && (getD as k).isDict
        case pos =>
          rw [if_pos hd]
          exact mergeData_preserves_leaf w (getD as k) p' v hleaf h
        case neg =>
          rw [if_neg hd]
          by_cases h2 : w.isNullOrEmptyDict
          case pos =>
            exfalso
            rcases isNullOrEmptyDict_iff.mp h2 with h3 | h3 <;> subst h3
            · cases p' with
              | nil =>
                simp only [getPath, Option.some.injEq] at h
                rw [← h] at hleaf
                simp [isLeafB] at hleaf
              | cons k2 p2 => simp [getPath] at h
            · cases p' with
              | nil =>
                simp only [getPath, Option.some.injEq] at h
                rw [← h] at hleaf
                simp [isLeafB] at hleaf
              | cons k2 p2 => simp [getPath, lookup] at h
          case neg =>
            rw [if_neg h2]
            by_cases h3 : (getD as k).isNullOrEmptyDict
            · rw [if_pos h3]; exact h
            · rw [if_neg h3]; exact h
termination_by A B p v => sizeOf A + sizeOf B
decreasing_by
  have h1 := sizeOf_lookup hl
  have h2 := sizeOf_getD as k
  omega

/-- `AIProcessor._get_empty_structure` (ai_processor.py:180-201): the canonical
empty schema template.  Note it contains no `bank_name`/`bank_id` keys. -/
def emptyStructure : Value :=
  .dict [
    ("effective_date", .null),
    ("penalty_interest", .null),
    ("deposits", .dict [
      ("veltureikningar", .dict []),
      ("sparireikningar", .dict [
        ("indexed", .dict []),
        ("unindexed", .dict []),
        ("other", .dict [])]),
      ("foreign_currency", .dict [])]),
    ("mortgages", .dict [
      ("indexed", .dict []),
      ("unindexed", .dict [])]),
    ("vehicle_loans", .dict []),
    ("overdrafts", .dict []),
    ("credit_cards", .dict [])]

/-- `BankScraper.enhance_with_ai` (base.py:56-104).
`use_ai` is `self.use_ai_parsing`; `config_ok` is
`Config.OPENROUTER_API_KEY and Config.ENABLE_AI_PARSING`; `ai` is the outcome
of constructing `AIProcessor` and calling `parse_bank_data`: `.ok d` when the
call returned `d`, `.error ()` when it raised (the `ImportError` and generic
`except Exception` handlers both return `parsed_data`). -/
def enhance_with_ai (use_ai config_ok : Bool) (parsed : Value)
    (ai : Except Unit Value) : Value :=
  if use_ai = false then parsed
  else if config_ok = false then parsed
  else if countNulls parsed < 5 then parsed
  else
    match ai with
    | .error _ => parsed
    | .ok ai_data => mergeData parsed ai_data

/-! ### A model of the Python string operations used by `parse_bank_data` -/

/-- Python `str.strip()` whitespace (ASCII part; the inputs involved contain
no exotic Unicode spaces). -/
def isPySpace (c : Char) : Bool :=
  c == ' ' || c == '\t' || c == '\n' || c == '\r' || c == '\x0b' || c == '\x0c'

/-- Python `s.strip()`. -/
def pyStrip (s : List Char) : List Char :=
  ((s.dropWhile isPySpace).reverse.dropWhile isPySpace).reverse

/-- Python `sep in s` for a non-empty separator. -/
def containsSub (sep : List Char) : List Char → Bool
  | [] => sep.isEmpty
  | c :: rest => sep.isPrefixOf (c :: rest) || containsSub sep rest

/-- Fuel-driven worker for `splitSub`. -/
def splitSubAux (sep : List Char) : Nat → List Char → List Char → List (List Char)
  | 0, s, acc => [acc.reverse ++ s]
  | fuel + 1, s, acc =>
    if sep ≠ [] && sep.isPrefixOf s then
      acc.reverse :: splitSubAux sep fuel (s.drop sep.length) []
    else
      match s with
      | [] => [acc.reverse]
      | c :: rest => splitSubAux sep fuel rest (c :: acc)

/-- Python `s.split(sep)` for a non-empty separator: split on each
non-overlapping occurrence, left to right. -/
def splitSub (sep s : List Char) : List (List Char) :=
  splitSubAux sep (s.length + 1) s []

/-! ### A model of `json.loads`

Models the stdlib JSON parser on the fragment this pipeline's data uses:
`null`, numbers without exponents, strings without escape sequences, arrays
and objects.  `none` corresponds to `json.JSONDecodeError`. -/

/-- JSON/Python `\s`-style whitespace skipped between tokens. -/
def skipWs (s : List Char) : List Char := s.dropWhile isPySpace

/-- Decimal digit. -/
def isDigitChar (c : Char) : Bool := '0' ≤ c && c ≤ '9'

/-- Numeric value of a digit string. -/
def digitsToNat (ds : List Char) : Nat :=
  ds.foldl (fun n c => n * 10 + (c.toNat - '0'.toNat)) 0

/-- Parse a JSON number (optional minus, integer part, optional fraction). -/
def jsonNumber (cs : List Char) : Option (Value × List Char) :=
  let (neg, cs1) :=
    match cs with
    | '-' :: rest => (true, rest)
    | _ => (false, cs)
  let ds := cs1.takeWhile isDigitChar
  let rest := cs1.dropWhile isDigitChar
  if ds = [] then none
  else
    match rest with
    | '.' :: rest2 =>
      let fs := rest2.takeWhile isDigitChar
      let rest3 := rest2.dropWhile isDigitChar
      if fs = [] then none
      else
        let mag : Rat := (digitsToNat ds : Rat) + (digitsToNat fs : Rat) / ((10 : Rat) ^ fs.length)
        some (.num (if neg then -mag else mag), rest3)
    | _ =>
      let mag : Rat := (digitsToNat ds : Rat)
      some (.num (if neg then -mag else mag), rest)

/-- Parse the remainder of a JSON string literal (opening quote already
consumed; escape sequences do not occur in the modelled data). -/
def jsonStringLit (cs : List Char) : Option (String × List Char) :=
  let body := cs.takeWhile (fun c => c ≠ '"')
  match cs.dropWhile (fun c => c ≠ '"') with
  | '"' :: rest => some (String.mk body, rest)
  | _ => none

mutual

/-- Parse one JSON value; returns the value and the unconsumed suffix. -/
def jsonValue : Nat → List Char → Option (Value × List Char)
  | 0, _ => none
  | fuel + 1, cs =>
    match skipWs cs with
    | 'n' :: 'u' :: 'l' :: 'l' :: rest => some (.null, rest)
    | '"' :: rest => (jsonStringLit rest).map (fun p => (.str p.1, p.2))
    | '[' :: rest =>
      (match skipWs rest with
       | ']' :: r2 => some (.list [], r2)
       | r => (jsonItems fuel r).map (fun p => (.list p.1, p.2)))
    | '{' :: rest =>
      (match skipWs rest with
       | '}' :: r2 => some (.dict [], r2)
       | r => (jsonMembers fuel r).map (fun p => (.dict p.1, p.2)))
    | cs' => jsonNumber cs'

/-- Parse `value (\x2c value)* \x5d` — the items of a non-empty array. -/
def jsonItems : Nat → List Char → Option (List Value × List Char)
  | 0, _ => none
  | fuel + 1, cs => do
    let (v, r) ← jsonValue fuel cs
    match skipWs r with
    | ',' :: r2 => (jsonItems fuel r2).map (fun p => (v :: p.1, p.2))
    | ']' :: r2 => some ([v], r2)
    | _ => none

/-- Parse `string : value (\x2c member)* \x7d` — the members of a non-empty
object. -/
def jsonMembers : Nat → List Char → Option (List (String × Value) × List Char)
  | 0, _ => none
  | fuel + 1, cs =>
    match skipWs cs with
    | '"' :: rest => do
      let (k, r) ← jsonStringLit rest
      match skipWs r with
      | ':' :: r2 => do
        let (v, r3) ← jsonValue fuel r2
        match skipWs r3 with
        | ',' :: r4 => (jsonMembers fuel r4).map (fun p => ((k, v) :: p.1, p.2))
        | '}' :: r4 => some ([(k, v)], r4)
        | _ => none
      | _ => none
    | _ => none

end

/-- `json.loads(result_text)`: parse one value, then require only whitespace
after it. -/
def json_loads (cs : List Char) : Option Value :=
  match jsonValue (2 * cs.length + 4) cs with
  | some (v, rest) => if skipWs rest = [] then some v else none
  | none => none

/-- Lines 67-73 of ai_processor.py: strip the message content, then unwrap
one Markdown code fence if present. -/
def cleanResponse (content : String) : List Char :=
  let t0 := pyStrip content.data
  if containsSub ("```json".data) t0 then
    pyStrip ((splitSub ("```".data) ((splitSub ("```json".data) t0).getD 1 [])).getD 0 [])
  else if containsSub ("```".data) t0 then
    pyStrip ((splitSub ("```".data) ((splitSub ("```".data) t0).getD 1 [])).getD 0 [])
  else t0

/-- `AIProcessor.parse_bank_data` (ai_processor.py:36-86), as a function of
the provider call's outcome.  `.error ()` covers any exception from the
chat-completions request (network/auth failure, missing choices, ...);
`.ok none` is a `None` message content (whose `.strip()` raises an
`AttributeError`, caught by the generic handler); `.ok (some text)` is a
returned text.  The method strips the text, unwraps one Markdown code fence
if present, parses JSON, and returns the parsed value — whatever its type —
on success; every failure path returns `_get_empty_structure()` and no
exception escapes to the caller. -/
def parse_bank_data (response : Except Unit (Option String)) : Value :=
  match response with
  | .error _ => emptyStructure
  | .ok none => emptyStructure
  | .ok (some content) =>
    match json_loads (cleanResponse content) with
    | some v => v
    | none => emptyStructure

/-! ### `InterestRateParser.parse_percentage` and the tiered-account dispatch -/

/-- Python `s.replace(old, "")` for a single-character `old`. -/
def removeChar (old : Char) (s : List Char) : List Char :=
  s.filter (fun c => c ≠ old)

/-- Python `s.replace(old, new)` for single characters. -/
def replaceChar (old new : Char) (s : List Char) : List Char :=
  s.map (fun c => if c = old then new else c)

/-- Model of Python `float()` restricted to unsigned decimal literals
(digit run, optional dot, digit run) — the only shapes reaching it here,
since every call site passes a `[\d,]+` regex capture with the comma turned
into a dot.  `none` models the `ValueError` path. -/
def pyFloat? (s : List Char) : Option Rat :=
  let intPart := s.takeWhile isDigitChar
  let rest := s.dropWhile isDigitChar
  match rest with
  | [] => if intPart = [] then none else some (digitsToNat intPart : Rat)
  | '.' :: frac =>
    if frac.all isDigitChar && (intPart ≠ [] || frac ≠ []) then
      some ((digitsToNat intPart : Rat) +
        (digitsToNat frac : Rat) / ((10 : Rat) ^ frac.length))
    else none
  | _ => none

/-- `InterestRateParser.parse_percentage` (parser.py:81-102): drop `%`,
strip, comma to dot, drop `*`, strip; parse the result as a float if
non-empty, else `None` (a float parse error is caught and yields `None`). -/
def parse_percentage (s : String) : Option Rat :=
  let v1 := pyStrip (removeChar '%' s.data)
  let v2 := replaceChar ',' '.' v1
  let v3 := pyStrip (removeChar '*' v2)
  if v3 = [] then none else pyFloat? v3

/-- Lines 373-378 of parser.py: walk the regex groups 1, 3, 5, keeping each
group that matched (is non-`None` and non-empty — Python truthiness) and
whose text parses as a percentage. -/
def collectRates : List (Option String) → List Rat
  | [] => []
  | g :: rest =>
    match g with
    | some s =>
      if s ≠ "" then
        match parse_percentage s with
        | some r => r :: collectRates rest
        | none => collectRates rest
      else collectRates rest
    | none => collectRates rest

/-- Lines 380-392 of parser.py (`_parse_tiered_accounts`): the three-way
arity dispatch on the number of matched rates after a tier label.  `g1`,
`g3`, `g5` are the tier regex's capture groups 1, 3 and 5 (`none` when the
optional group did not participate).  `none` overall means no branch was
taken (no rates) and the tier key is not assigned. -/
def tierValue (g1 g3 g5 : Option String) : Option Value :=
  let rates := collectRates [g1, g3, g5]
  if rates.length = 1 then some (.num (rates.getD 0 0))
  else if rates.length = 2 then
    some (.dict [("indexed", .num (rates.getD 0 0)),
                 ("unindexed", .num (rates.getD 1 0))])
  else if 3 ≤ rates.length then
    some (.dict [("unbound", .num (rates.getD 0 0)),
                 ("3_months", .num (rates.getD 1 0)),
                 ("6_months", if 2 < rates.length then .num (rates.getD 2 0) else .null)])
  else none

/-! ### Effective-date parsing

An executable model of the regular expressions used by
`InterestRateParser.parse_effective_date` (parser.py:46-79) and
`IslandsbankiScraper.parse_effective_date` (islandsbanki.py:157-212).

The date pattern is `(\d{1,2})\.\s*(\w+)\s+(\d{4})`.  For this pattern
greedy matching with backtracking is deterministic at each start position:
`\s*`/`\s+` must take a maximal whitespace run (a shorter run would leave a
whitespace character where `\w`/`\d` is required), `\w+` must take a maximal
word run (a shorter run would leave a word character where `\s` is
required), and if the first two characters are digits then the one-digit
day alternative dies on the literal dot.  `re.search` semantics is the
scan over start positions, leftmost first. -/

/-- Characters Python's `\w` matches in these documents: ASCII alphanumerics,
underscore, and the Icelandic letters that occur in month names and
surrounding text.  (Python's Unicode `\w` is wider; the difference is
irrelevant for the claims, which constrain behaviour only through this
model.) -/
def isWordChar (c : Char) : Bool :=
  c.isAlphanum || c == '_' ||
    c == 'á' || c == 'é' || c == 'í' || c == 'ó' || c == 'ú' || c == 'ý' ||
    c == 'þ' || c == 'æ' || c == 'ö' || c == 'ð' ||
    c == 'Á' || c == 'É' || c == 'Í' || c == 'Ó' || c == 'Ú' || c == 'Ý' ||
    c == 'Þ' || c == 'Æ' || c == 'Ö' || c == 'Ð'

/-- Python `str.lower()` on the alphabet of these documents (ASCII plus the
Icelandic capitals). -/
def toLowerChar (c : Char) : Char :=
  match c with
  | 'Á' => 'á'
  | 'É' => 'é'
  | 'Í' => 'í'
  | 'Ó' => 'ó'
  | 'Ú' => 'ú'
  | 'Ý' => 'ý'
  | 'Þ' => 'þ'
  | 'Æ' => 'æ'
  | 'Ö' => 'ö'
  | 'Ð' => 'ð'
  | _ => c.toLower

/-- `text.lower()`. -/
def lowerList (s : List Char) : List Char := s.map toLowerChar

/-- Match `\s*(\w+)\s+(\d{4})` at the head of `rest` (after the day and the
literal dot), returning the day/month-name/year capture groups. -/
def matchDateTail (day : List Char) (rest : List Char) :
    Option (List Char × List Char × List Char) :=
  let r1 := rest.dropWhile isPySpace
  let word := r1.takeWhile isWordChar
  let r2 := r1.dropWhile isWordChar
  if word = [] then none
  else if r2.takeWhile isPySpace = [] then none
  else
    match r2.dropWhile isPySpace with
    | y1 :: y2 :: y3 :: y4 :: _ =>
      if isDigitChar y1 && isDigitChar y2 && isDigitChar y3 && isDigitChar y4 then
        some (day, word, [y1, y2, y3, y4])
      else none
    | _ => none

/-- Match `(\d{1,2})\.\s*(\w+)\s+(\d{4})` at the head of `cs` (two-digit day
first, as the greedy `\d{1,2}` tries it first; when the first two characters
are digits the one-digit alternative dies on the literal dot, so the
dispatch below is exact). -/
def matchDateAt (cs : List Char) : Option (List Char × List Char × List Char) :=
  match cs with
  | c1 :: c2 :: c3 :: rest =>
    if isDigitChar c1 && isDigitChar c2 && c3 = '.' then
      matchDateTail [c1, c2] rest
    else if isDigitChar c1 && c2 = '.' then
      matchDateTail [c1] (c3 :: rest)
    else none
  | [c1, c2] =>
    if isDigitChar c1 && c2 = '.' then matchDateTail [c1] [] else none
  | _ => none

/-- `re.search` for the date pattern: try each start position, leftmost
first. -/
def searchDate : List Char → Option (List Char × List Char × List Char)
  | [] => none
  | c :: rest =>
    match matchDateAt (c :: rest) with
    | some m => some m
    | none => searchDate rest

/-- The `months_icelandic` table shared by parser.py:57-61,
landsbankinn.py:85-89 and islandsbanki.py:163-176. -/
def monthsIcelandic (m : List Char) : Option Nat :=
  if m = "janúar".data then some 1
  else if m = "febrúar".data then some 2
  else if m = "mars".data then some 3
  else if m = "apríl".data then some 4
  else if m = "maí".data then some 5
  else if m = "júní".data then some 6
  else if m = "júlí".data then some 7
  else if m = "ágúst".data then some 8
  else if m = "september".data then some 9
  else if m = "október".data then some 10
  else if m = "nóvember".data then some 11
  else if m = "desember".data then some 12
  else none

/-- Gregorian leap year, as the `datetime` module computes it. -/
def isLeapYear (y : Nat) : Bool :=
  (y % 4 = 0 && y % 100 ≠ 0) || y % 400 = 0

/-- Days in a month, as validated by the `datetime` constructor. -/
def daysInMonth (y m : Nat) : Nat :=
  if m = 2 then (if isLeapYear y then 29 else 28)
  else if m = 4 || m = 6 || m = 9 || m = 11 then 30
  else 31

/-- `datetime(year, month, day)` succeeds exactly under these bounds
(`datetime.MINYEAR = 1`, `MAXYEAR = 9999`); otherwise it raises
`ValueError`, which the date parsers catch. -/
def validDate (y m d : Nat) : Bool :=
  1 ≤ y && y ≤ 9999 && 1 ≤ m && m ≤ 12 && 1 ≤ d && d ≤ daysInMonth y m

/-- Digit character for `n < 10`. -/
def digitChar (n : Nat) : Char := Char.ofNat (48 + n)

/-- Two-digit zero-padded decimal (`%m`, `%d`). -/
def pad2 (n : Nat) : List Char := [digitChar (n / 10 % 10), digitChar (n % 10)]

/-- Four-digit decimal (`%Y`; every year reaching this formatter comes from
a `\d{4}` capture and the claims only exercise years ≥ 1000, where this
agrees with CPython's `strftime` output on every platform). -/
def pad4 (n : Nat) : List Char :=
  [digitChar (n / 1000 % 10), digitChar (n / 100 % 10),
   digitChar (n / 10 % 10), digitChar (n % 10)]

/-- `date.strftime(%Y-%m-%d)`. -/
def fmtDate (y m d : Nat) : String :=
  String.mk (pad4 y ++ '-' :: (pad2 m ++ '-' :: pad2 d))

/-- Lines 66-78 of parser.py, shared by the Íslandsbanki scraper: convert a
regex match into an ISO date if the month name is known and the calendar
date is valid; otherwise `None`. -/
def dateFromMatch (m : Option (List Char × List Char × List Char)) : Option String :=
  match m with
  | none => none
  | some (d, mn, y) =>
    match monthsIcelandic mn with
    | none => none
    | some mo =>
      if validDate (digitsToNat y) mo (digitsToNat d) then
        some (fmtDate (digitsToNat y) mo (digitsToNat d))
      else none

/-- `InterestRateParser.parse_effective_date` (parser.py:46-79; textually
identical in `LandsbankinScraper.parse_effective_date`,
landsbankinn.py:83-107): lowercase the text, search for the date pattern,
and accept only a known month name and a valid calendar date. -/
def parse_effective_date (text : String) : Option String :=
  dateFromMatch (searchDate (lowerList text.data))

/-- Match islandsbanki.py's prefixed pattern head
`(?:gildir|tekur\s+gildi)` at the head of `cs`; returns the rest.
(`gildir` and `tekur` start with different letters, so the alternation is
deterministic; after `tekur`, `\s+` must take the maximal whitespace run
because `gildi` starts with a non-space.) -/
def matchGildirPrefixAt (cs : List Char) : Option (List Char) :=
  if ("gildir".data).isPrefixOf cs then some (cs.drop 6)
  else if ("tekur".data).isPrefixOf cs then
    let r := cs.drop 5
    if r.takeWhile isPySpace = [] then none
    else
      let r2 := r.dropWhile isPySpace
      if ("gildi".data).isPrefixOf r2 then some (r2.drop 5) else none
  else none

/-- Match islandsbanki.py's full first pattern
`(?:gildir|tekur\s+gildi)\s+(?:frá\s+)?(\d{1,2})\.\s*(\w+)\s+(\d{4})`
at the head of `cs`.  The optional `frá\s+` commits when it matches: if the
date after it fails, the no-`frá` alternative would have to start the day
digits on the letter `f`, which also fails, so no backtracking case is
lost. -/
def matchGildirDateAt (cs : List Char) : Option (List Char × List Char × List Char) :=
  match matchGildirPrefixAt cs with
  | none => none
  | some r =>
    if r.takeWhile isPySpace = [] then none
    else
      let r1 := r.dropWhile isPySpace
      let r2 :=
        if ("frá".data).isPrefixOf r1 then
          let r' := r1.drop 3
          if r'.takeWhile isPySpace = [] then r1 else r'.dropWhile isPySpace
        else r1
      matchDateAt r2

/-- `re.search` for the prefixed pattern. -/
def searchGildir : List Char → Option (List Char × List Char × List Char)
  | [] => none
  | c :: rest =>
    match matchGildirDateAt (c :: rest) with
    | some m => some m
    | none => searchGildir rest

/-- `IslandsbankiScraper.parse_effective_date` (islandsbanki.py:157-212).
`exc` models an exception raised while reading the document
(`soup.get_text`), the only path that returns `None`; `today` is
`datetime.utcnow()`'s (year, month, day).  Otherwise: try the
`gildir`-prefixed pattern, then the bare date pattern, and fall back to
today's date formatted `%Y-%m-%d`. -/
def islb_parse_effective_date (exc : Bool) (text : String)
    (today : Nat × Nat × Nat) : Option String :=
  if exc then none
  else
    let low := lowerList text.data
    match dateFromMatch (searchGildir low) with
    | some s => some s
    | none =>
      match dateFromMatch (searchDate low) with
      | some s => some s
      | none => some (fmtDate today.1 today.2.1 today.2.2)

/-! ## Claims -/

/-- C1: the reconciling merge proceeds per key over the union of both
records' key sets; at each key it recurses when both values are mappings,
takes the secondary value when the primary one is null or an empty mapping,
takes the primary value when the secondary one is null or an empty mapping,
and in every remaining case keeps the primary value.  (Outside the union the
merged record has no entry.) -/
theorem merge_branch_dispatch (os as : List (String × Value)) (k : String) :
    (∃ ms, mergeData (.dict os) (.dict as) = .dict ms ∧
      ms.map Prod.fst = unionKeys os as) ∧
    getPath (mergeData (.dict os) (.dict as)) [k] =
      (if k ∈ unionKeys os as then
        some (if (getD os k).isDict && (getD as k).isDict then
                mergeData (getD os k) (getD as k)
              else if (getD os k).isNullOrEmptyDict then getD as k
              else if (getD as k).isNullOrEmptyDict then getD os k
              else getD os k)
       else none) := by
  constructor
  · refine ⟨_, mergeData_dict os as, ?_⟩
    have hmap : ∀ (ks : List String),
        (ks.map (fun x => (x, mergeCase (getD os x) (getD as x)))).map Prod.fst = ks := by
      intro ks
      induction ks with
      | nil => rfl
      | cons x xs ih => simp only [List.map_cons, ih]
    exact hmap _
  · rw [mergeData_dict]
    by_cases hk : k ∈ unionKeys os as
    · have hsome := lookup_map_of_mem
        (fun x => mergeCase (getD os x) (getD as x)) _ _ hk
      simp only [getPath, hsome, if_pos hk]
      rw [mergeCase]
    · have hnone := lookup_map_of_not_mem
        (fun x => mergeCase (getD os x) (getD as x)) _ _ hk
      simp only [getPath, hnone, if_neg hk]

/-- C2 counterexample: the claim "wherever either input holds a non-null
value, the merge result is non-null at that path" fails at
`A = ⦃k: ⦃⦄⦄`, `B = ⦃k: None⦄`: `A` holds the non-null value `⦃⦄` at path
`k`, yet the merged record holds `None` there. -/
theorem merge_monotonicity_counterexample :
    getPath (.dict [("k", .dict [])]) ["k"] = some (.dict []) ∧
    Value.dict [] ≠ Value.null ∧
    getPath (mergeData (.dict [("k", .dict [])]) (.dict [("k", .null)])) ["k"] =
      some .null := by
  refine ⟨by simp [getPath, lookup], by simp, ?_⟩
  have hm : mergeData (.dict [("k", .dict [])]) (.dict [("k", .null)]) =
      .dict [("k", .null)] := by
    simp [mergeData, unionKeys, dedupFirst, getD, lookup,
      Value.isDict, Value.isNullOrEmptyDict]
  rw [hm]
  simp [getPath, lookup]

/-- C2 amended: the merged record holds an explicit null at a path only
where the secondary record is null or absent at that path and the primary
record is null, absent, or an empty mapping there. -/
theorem merge_null_requires_both_missing (A B : Value) (p : List String)
    (h : getPath (mergeData A B) p = some .null) :
    (getPath B p = none ∨ getPath B p = some .null) ∧
    (getPath A p = none ∨ getPath A p = some .null ∨
      getPath A p = some (.dict [])) :=
  mergeData_null_path A B p h

theorem merge_null_requires_both_missing_witness :
    getPath (mergeData (.dict [("k", .null)]) (.dict [])) ["k"] = some .null ∧
    ((getPath (.dict [] : Value) ["k"] = none ∨
      getPath (.dict [] : Value) ["k"] = some .null) ∧
     (getPath (.dict [("k", .null)]) ["k"] = none ∨
      getPath (.dict [("k", .null)]) ["k"] = some .null ∨
      getPath (.dict [("k", .null)]) ["k"] = some (.dict []))) := by
  have hm : mergeData (.dict [("k", .null)]) (.dict []) = .dict [("k", .null)] := by
    simp [mergeData, unionKeys, dedupFirst, getD, lookup,
      Value.isDict, Value.isNullOrEmptyDict]
  refine ⟨by rw [hm]; simp [getPath, lookup], ?_⟩
  exact merge_null_requires_both_missing _ _ _ (by rw [hm]; simp [getPath, lookup])

/-- C3: the merge is idempotent — merging a (well-formed, i.e. duplicate-free)
record with itself returns it unchanged, hence the missing count is also
unchanged. -/
theorem merge_idempotent (X : Value) (h : wfB X = true) :
    mergeData X X = X ∧ countNulls (mergeData X X) = countNulls X :=
  ⟨mergeData_self X h, by rw [mergeData_self X h]⟩

theorem merge_idempotent_witness :
    wfB (.dict [("a", .num 1), ("b", .null)]) = true ∧
    (mergeData (.dict [("a", .num 1), ("b", .null)])
        (.dict [("a", .num 1), ("b", .null)]) =
      .dict [("a", .num 1), ("b", .null)] ∧
     countNulls (mergeData (.dict [("a", .num 1), ("b", .null)])
        (.dict [("a", .num 1), ("b", .null)])) =
      countNulls (.dict [("a", .num 1), ("b", .null)])) :=
  ⟨by decide, merge_idempotent _ (by decide)⟩

/-- C4 counterexample: `_count_nulls` counts an empty mapping (and an empty
sequence) as 1 missing, not 0, so adding an empty sub-mapping to a record
changes its missing count. -/
theorem count_missing_empty_one_counterexample :
    countNulls (.dict []) = 1 ∧
    countNulls (.list []) = 1 ∧
    countNulls (.dict [("a", .num 1), ("b", .dict [])]) ≠
      countNulls (.dict [("a", .num 1)]) := by
  exact ⟨rfl, rfl, by decide⟩

/-- C4 amended: `_count_nulls` counts a null leaf as 1, counts an **empty**
mapping or sequence as 1 (not 0), recurses into and sums over non-empty
mappings and sequences, counts every other leaf as 0, and consequently
adding an empty sub-mapping to a non-empty record increases its missing
count by exactly 1. -/
theorem count_missing_recursion :
    countNulls .null = 1 ∧
    countNulls (.dict []) = 1 ∧
    countNulls (.list []) = 1 ∧
    (∀ q, countNulls (.num q) = 0) ∧
    (∀ s, countNulls (.str s) = 0) ∧
    (∀ e es, countNulls (.dict (e :: es)) = countNulls e.2 + countNullsEntries es) ∧
    (∀ v vs, countNulls (.list (v :: vs)) = countNulls v + countNullsList vs) ∧
    (∀ k e es, countNulls (.dict ((k, .dict []) :: e :: es)) =
      1 + countNulls (.dict (e :: es))) :=
  ⟨rfl, rfl, rfl, fun _ => rfl, fun _ => rfl, fun _ _ => rfl, fun _ _ => rfl,
    fun _ _ _ => rfl⟩

/-- C5: a deterministic candidate whose missing count is below the
threshold (the literal 5 at base.py:83; a fortiori below the configured
`Config.AI_NULL_THRESHOLD` default 3) skips the AI step entirely:
`enhance_with_ai` returns it unchanged whatever the AI call would do. -/
theorem below_threshold_skips_ai (u c : Bool) (parsed : Value)
    (ai : Except Unit Value) (h : countNulls parsed < 5) :
    enhance_with_ai u c parsed ai = parsed := by
  unfold enhance_with_ai
  by_cases hu : u = false
  · rw [if_pos hu]
  · rw [if_neg hu]
    by_cases hc : c = false
    · rw [if_pos hc]
    · rw [if_neg hc, if_pos h]

theorem below_threshold_skips_ai_witness :
    countNulls (.dict [("penalty_interest", .num (61/4)), ("effective_date", .null)]) < 5 ∧
    enhance_with_ai true true
        (.dict [("penalty_interest", .num (61/4)), ("effective_date", .null)])
        (.ok emptyStructure) =
      .dict [("penalty_interest", .num (61/4)), ("effective_date", .null)] :=
  ⟨by decide, below_threshold_skips_ai true true _ _ (by decide)⟩

/-- C6 counterexample: `parse_bank_data` does not retry and does not set
identity fields: on a failed provider call it returns the bare
`_get_empty_structure()` template, which contains no `bank_name`/`bank_id`
keys at all; and a syntactically valid non-mapping response (here the JSON
array `[1, 2]`) is returned as-is rather than treated as a failure. -/
theorem ai_fallback_identity_fields_counterexample :
    parse_bank_data (.error ()) = emptyStructure ∧
    getPath emptyStructure ["bank_name"] = none ∧
    getPath emptyStructure ["bank_id"] = none ∧
    parse_bank_data (.ok (some "[1, 2]")) = .list [.num 1, .num 2] := by
  refine ⟨rfl, by decide, by decide, by decide⟩

/-- C6 amended: on any failing attempt — provider exception, missing
content, or content that does not parse as JSON after fence stripping —
`parse_bank_data` makes its single attempt and returns the canonical empty
schema template *without* identity fields; no exception reaches the
caller (the embedding is total). -/
theorem ai_fallback_failure_returns_bare_template
    (resp : Except Unit (Option String))
    (h : resp = .error () ∨ resp = .ok none ∨
      ∃ t, resp = .ok (some t) ∧ json_loads (cleanResponse t) = none) :
    parse_bank_data resp = emptyStructure := by
  rcases h with h | h | ⟨t, h, hj⟩ <;> subst h
  · rfl
  · rfl
  · simp [parse_bank_data, hj]

theorem ai_fallback_failure_returns_bare_template_witness :
    json_loads (cleanResponse "not json at all") = none ∧
    parse_bank_data (.ok (some "not json at all")) = emptyStructure :=
  ⟨by decide, ai_fallback_failure_returns_bare_template _
    (Or.inr (Or.inr ⟨"not json at all", rfl, by decide⟩))⟩

/-- C7 counterexample: when the provider fails, `parse_bank_data` degrades
to the empty template (it does not raise), so `enhance_with_ai` proceeds to
merge it into the candidate; the result is *not* the candidate itself (here
the merge adds the template's keys). -/
theorem ai_failure_not_identity_counterexample :
    enhance_with_ai true true
        (.dict [("credit_cards", .null), ("a", .null), ("b", .null),
                ("c", .null), ("d", .null)])
        (.ok (parse_bank_data (.error ()))) ≠
      .dict [("credit_cards", .null), ("a", .null), ("b", .null),
             ("c", .null), ("d", .null)] := by
  intro hcon
  have h1 : enhance_with_ai true true
      (.dict [("credit_cards", .null), ("a", .null), ("b", .null),
              ("c", .null), ("d", .null)])
      (.ok (parse_bank_data (.error ()))) =
      mergeData
        (.dict [("credit_cards", .null), ("a", .null), ("b", .null),
                ("c", .null), ("d", .null)]) emptyStructure := rfl
  rw [h1] at hcon
  simp [mergeData, unionKeys, dedupFirst, getD, lookup, Value.isDict,
    Value.isNullOrEmptyDict, emptyStructure] at hcon

/-- C7 amended: when the AI call *raises* (import error or any other
exception), `enhance_with_ai` returns the deterministic candidate itself;
and in every case — including the degraded empty-template merge after a
provider failure — no non-null scalar leaf of the deterministic candidate
is ever discarded or replaced. -/
theorem ai_failure_preserves_deterministic_values :
    (∀ (u c : Bool) (parsed : Value),
      enhance_with_ai u c parsed (.error ()) = parsed) ∧
    (∀ (u c : Bool) (parsed ai : Value) (p : List String) (v : Value),
      isLeafB v = true → getPath parsed p = some v →
      getPath (enhance_with_ai u c parsed (.ok ai)) p = some v) := by
  constructor
  · intro u c parsed
    by_cases h5 : countNulls parsed < 5 <;>
      cases u <;> cases c <;> simp [enhance_with_ai, h5]
  · intro u c parsed ai p v hleaf h
    unfold enhance_with_ai
    by_cases hu : u = false
    · rw [if_pos hu]; exact h
    · rw [if_neg hu]
      by_cases hc : c = false
      · rw [if_pos hc]; exact h
      · rw [if_neg hc]
        by_cases h5 : countNulls parsed < 5
        · rw [if_pos h5]; exact h
        · rw [if_neg h5]
          exact mergeData_preserves_leaf parsed ai p v hleaf h

theorem ai_failure_preserves_deterministic_values_witness :
    enhance_with_ai true true (.dict [("x", .num 1)]) (.error ()) =
      .dict [("x", .num 1)] ∧
    isLeafB (.num 1) = true ∧
    getPath (.dict [("x", .num 1), ("a", .null), ("b", .null), ("c", .null),
        ("d", .null)]) ["x"] = some (.num 1) ∧
    getPath (enhance_with_ai true true
        (.dict [("x", .num 1), ("a", .null), ("b", .null), ("c", .null),
            ("d", .null)]) (.ok emptyStructure)) ["x"] = some (.num 1) :=
  ⟨ai_failure_preserves_deterministic_values.1 true true _, by decide, by decide,
    ai_failure_preserves_deterministic_values.2 true true _ _ ["x"] _
      (by decide) (by decide)⟩

/-- C8: the tiered-account arity dispatch — exactly 1 matched rate yields a
scalar percentage, exactly 2 yield the 2-key indexed/unindexed mapping, and
3 or more yield the 3-key unbound/3-month/6-month tenor mapping. -/
theorem tier_arity_dispatch (g1 g3 g5 : Option String) :
    ((collectRates [g1, g3, g5]).length = 1 →
      ∃ r, tierValue g1 g3 g5 = some (.num r)) ∧
    ((collectRates [g1, g3, g5]).length = 2 →
      ∃ a b, tierValue g1 g3 g5 =
        some (.dict [("indexed", .num a), ("unindexed", .num b)])) ∧
    (3 ≤ (collectRates [g1, g3, g5]).length →
      ∃ a b c, tierValue g1 g3 g5 =
        some (.dict [("unbound", .num a), ("3_months", .num b),
                     ("6_months", .num c)])) := by
  refine ⟨?_, ?_, ?_⟩ <;> intro h
  · exact ⟨(collectRates [g1, g3, g5]).getD 0 0, by simp [tierValue, h]⟩
  · exact ⟨(collectRates [g1, g3, g5]).getD 0 0,
      (collectRates [g1, g3, g5]).getD 1 0, by simp [tierValue, h]⟩
  · have h1 : ¬((collectRates [g1, g3, g5]).length = 1) := by omega
    have h2 : ¬((collectRates [g1, g3, g5]).length = 2) := by omega
    have h4 : 2 < (collectRates [g1, g3, g5]).length := by omega
    exact ⟨(collectRates [g1, g3, g5]).getD 0 0,
      (collectRates [g1, g3, g5]).getD 1 0,
      (collectRates [g1, g3, g5]).getD 2 0, by simp [tierValue, h1, h2, h, h4]⟩

theorem tier_arity_dispatch_witness :
    ((collectRates [some "4,50", none, none]).length = 1 ∧
      ∃ r, tierValue (some "4,50") none none = some (.num r)) ∧
    ((collectRates [some "4,50", some "3,25", none]).length = 2 ∧
      ∃ a b, tierValue (some "4,50") (some "3,25") none =
        some (.dict [("indexed", .num a), ("unindexed", .num b)])) ∧
    ((collectRates [some "4,50", some "3,25", some "2,00"]).length = 3 ∧
      ∃ a b c, tierValue (some "4,50") (some "3,25") (some "2,00") =
        some (.dict [("unbound", .num a), ("3_months", .num b),
                     ("6_months", .num c)])) :=
  ⟨⟨by decide, (tier_arity_dispatch (some "4,50") none none).1 (by decide)⟩,
   ⟨by decide, (tier_arity_dispatch (some "4,50") (some "3,25") none).2.1 (by decide)⟩,
   ⟨by decide, (tier_arity_dispatch (some "4,50") (some "3,25") (some "2,00")).2.2
      (by decide)⟩⟩

/-- C9: `InterestRateParser.parse_effective_date` rejects invalid calendar
dates instead of rounding them: whenever the leftmost regex match carries a
known month name but an invalid calendar date, the parser returns `None`;
`"24. október 2025"` parses to `"2025-10-24"` and `"31. febrúar 2025"` to
`None`. -/
theorem date_rejects_invalid_calendar :
    parse_effective_date "24. október 2025" = some "2025-10-24" ∧
    parse_effective_date "31. febrúar 2025" = none ∧
    ∀ (text : String) (d mn y : List Char) (mo : Nat),
      searchDate (lowerList text.data) = some (d, mn, y) →
      monthsIcelandic mn = some mo →
      validDate (digitsToNat y) mo (digitsToNat d) = false →
      parse_effective_date text = none := by
  refine ⟨by decide, by decide, ?_⟩
  intro text d mn y mo hs hm hv
  simp [parse_effective_date, dateFromMatch, hs, hm, hv]

theorem date_rejects_invalid_calendar_witness :
    searchDate (lowerList ("31. febrúar 2025".data)) =
      some ("31".data, "febrúar".data, "2025".data) ∧
    monthsIcelandic ("febrúar".data) = some 2 ∧
    validDate (digitsToNat ("2025".data)) 2 (digitsToNat ("31".data)) = false ∧
    parse_effective_date "31. febrúar 2025" = none :=
  ⟨by decide, by decide, by decide,
    date_rejects_invalid_calendar.2.2 "31. febrúar 2025"
      ("31".data) ("febrúar".data) ("2025".data) 2
      (by decide) (by decide) (by decide)⟩

/-- C10: the Íslandsbanki scraper's `parse_effective_date` never reports
absence on readable input: it returns `None` exactly when an exception
occurred while reading the document, and when neither pattern produces a
valid date it falls back to the current UTC date formatted `YYYY-MM-DD`. -/
theorem islandsbanki_date_defaults_to_today :
    (∀ (exc : Bool) (text : String) (today : Nat × Nat × Nat),
      (islb_parse_effective_date exc text today = none ↔ exc = true)) ∧
    (∀ (text : String) (today : Nat × Nat × Nat),
      dateFromMatch (searchGildir (lowerList text.data)) = none →
      dateFromMatch (searchDate (lowerList text.data)) = none →
      islb_parse_effective_date false text today =
        some (fmtDate today.1 today.2.1 today.2.2)) := by
  constructor
  · intro exc text today
    cases exc
    · simp only [islb_parse_effective_date, if_neg (by simp : ¬(false = true))]
      constructor
      · intro h
        cases hg : dateFromMatch (searchGildir (lowerList text.data)) with
        | some s => rw [hg] at h; cases h
        | none =>
          rw [hg] at h
          cases hd : dateFromMatch (searchDate (lowerList text.data)) with
          | some s => rw [hd] at h; cases h
          | none => rw [hd] at h; cases h
      · intro h
        cases h
    · simp [islb_parse_effective_date]
  · intro text today hg hd
    simp [islb_parse_effective_date, hg, hd]

theorem islandsbanki_date_defaults_to_today_witness :
    (islb_parse_effective_date true "vaxtatafla" (2026, 10, 12) = none ↔
      true = true) ∧
    dateFromMatch (searchGildir (lowerList ("engar dagsetningar".data))) = none ∧
    dateFromMatch (searchDate (lowerList ("engar dagsetningar".data))) = none ∧
    islb_parse_effective_date false "engar dagsetningar" (2026, 10, 12) =
      some (fmtDate 2026 10 12) ∧
    fmtDate 2026 10 12 = "2026-10-12" :=
  ⟨(islandsbanki_date_defaults_to_today.1 true "vaxtatafla" (2026, 10, 12)),
   by decide, by decide,
   islandsbanki_date_defaults_to_today.2 "engar dagsetningar" (2026, 10, 12)
     (by decide) (by decide),
   by decide⟩

end Bank
